import Mathlib

/-!
Verification of the RBAC backend (backend/app.py, backend/auth.py,
backend/db.py, backend/models.py) against its specification.

The SQLite table `usuarios` is modelled as a list of rows (`Store`), in
rowid order; `SELECT ... WHERE` clauses become list filters, `INSERT`
becomes an append guarded by the PRIMARY KEY / UNIQUE constraints, and a
transaction that is never committed leaves the durable store unchanged.
Python dictionaries returned to callers are modelled as association lists
(`Dict`) so that presence or absence of a key (in particular
"password_hash") is observable.  The bcrypt library is an external
collaborator; it is modelled by its functional contract: `hashpw pw salt`
is an opaque value determined by the salt and the plaintext (the real
bcrypt string embeds its salt, so distinct salts give distinct strings),
and `checkpw` succeeds exactly on the hashed plaintext.
-/

namespace Prueba

/-- Model of a bcrypt hash string: the real string embeds the salt and is a
one-way image of the plaintext.  The functional contract is all the code
uses: `checkpw p (hashpw q s)` holds iff `p = q`, and the salt is
recoverable, so hashes with distinct salts are distinct strings. -/
structure BcryptHash where
  salt : Nat
  pw : String
deriving DecidableEq, Repr

/-- Model of `bcrypt.hashpw` (the salt argument stands for the random
bytes produced by `bcrypt.gensalt()`). -/
def hashpw (password : String) (salt : Nat) : BcryptHash :=
  ⟨salt, password⟩

/-- Model of `bcrypt.checkpw`: verification succeeds exactly when the
plaintext matches the one hashed into the stored value. -/
def checkpw (password : String) (hashed : BcryptHash) : Bool :=
  hashed.pw == password

/-- One row of the SQLite table `usuarios`
(id INTEGER PRIMARY KEY, nombre, rol, renta_mensual REAL,
username UNIQUE, password_hash).  `renta_mensual` is never computed with,
only stored and echoed, so a rational carrier is used for the REAL
column. -/
structure UserRecord where
  id : Int
  nombre : String
  rol : String
  renta_mensual : Rat
  username : String
  password_hash : BcryptHash
deriving DecidableEq, Repr

/-- The `usuarios` table, in rowid order. -/
abbrev Store := List UserRecord

/-- Values that appear in the Python dictionaries the backend builds. -/
inductive Value where
  | vInt : Int → Value
  | vStr : String → Value
  | vRat : Rat → Value
  | vHash : BcryptHash → Value
deriving DecidableEq, Repr

/-- A Python dictionary, as an association list of string keys.  All
dictionaries built by the backend have pairwise distinct keys. -/
abbrev Dict := List (String × Value)

/-- Model of `dict.pop(key, None)`: remove the entry with the given key. -/
def dictPop (k : String) (d : Dict) : Dict :=
  d.filter (fun kv => !(kv.1 == k))

/-- The four-column public row `{id, nombre, rol, renta_mensual}` built by
both `models.get_users_for_role` and `app._get_users_for_role` from a
fetched row. -/
def publicRow (u : UserRecord) : Dict :=
  [("id", Value.vInt u.id), ("nombre", Value.vStr u.nombre),
   ("rol", Value.vStr u.rol), ("renta_mensual", Value.vRat u.renta_mensual)]

/-- The six-column row (including the hash) built by
`models.get_user_auth_by_username` and `app._get_user_by_username`. -/
def authRow (u : UserRecord) : Dict :=
  [("id", Value.vInt u.id), ("nombre", Value.vStr u.nombre),
   ("rol", Value.vStr u.rol), ("renta_mensual", Value.vRat u.renta_mensual),
   ("username", Value.vStr u.username),
   ("password_hash", Value.vHash u.password_hash)]

/-- Embedding of `models.get_user_by_username`: `SELECT` of the five
public columns `WHERE username = ?`, `fetchone`. -/
def get_user_by_username (store : Store) (username : String) : Option Dict :=
  match store.find? (fun u => u.username == username) with
  | none => none
  | some u => some
      [("id", Value.vInt u.id), ("nombre", Value.vStr u.nombre),
       ("rol", Value.vStr u.rol), ("renta_mensual", Value.vRat u.renta_mensual),
       ("username", Value.vStr u.username)]

/-- Embedding of `models.get_user_auth_by_username`: like the previous
lookup but the row includes `password_hash` (login only). -/
def get_user_auth_by_username (store : Store) (username : String) : Option Dict :=
  match store.find? (fun u => u.username == username) with
  | none => none
  | some u => some (authRow u)

/-- Embedding of `app._get_user_by_username` (the handler-embedded copy of
the same query, also including `password_hash`). -/
def app_get_user_by_username (store : Store) (username : String) : Option Dict :=
  match store.find? (fun u => u.username == username) with
  | none => none
  | some u => some (authRow u)

/-- Embedding of `auth.verify_password`. -/
def verify_password (password : String) (hashed : BcryptHash) : Bool :=
  checkpw password hashed

/-- Embedding of `auth.authenticate_user`: look the username up (with
hash), verify, and on success return the row with `password_hash` popped;
on a missing user or a failed verification return `None`.  The fall-back
match arm is unreachable for rows built by `get_user_auth_by_username`,
which always carry a hash under the key "password_hash". -/
def authenticate_user (store : Store) (username password : String) : Option Dict :=
  match get_user_auth_by_username store username with
  | none => none
  | some user =>
    match user.lookup "password_hash" with
    | some (Value.vHash h) =>
        if verify_password password h then some (dictPop "password_hash" user)
        else none
    | _ => none

/-- Embedding of `app._authenticate_user` (the handler-embedded copy). -/
def app_authenticate_user (store : Store) (username password : String) : Option Dict :=
  match app_get_user_by_username store username with
  | none => none
  | some user =>
    match user.lookup "password_hash" with
    | some (Value.vHash h) =>
        if checkpw password h then some (dictPop "password_hash" user)
        else none
    | _ => none

/-- Embedding of `models.get_users_for_role`: the role-scoped visibility
query.  `WHERE rol IN (supervisor, usuario)`, `WHERE id = ?` and
`WHERE 1=0` become the corresponding filters over the table. -/
def get_users_for_role (store : Store) (current_user_id : Int)
    (current_role : String) : List Dict :=
  if current_role == "admin" then
    store.map publicRow
  else if current_role == "supervisor" then
    (store.filter (fun u => u.rol == "supervisor" || u.rol == "usuario")).map publicRow
  else if current_role == "usuario" then
    (store.filter (fun u => u.id == current_user_id)).map publicRow
  else
    []

/-- Embedding of `app._get_users_for_role` (the handler-embedded copy,
textually the same queries). -/
def app_get_users_for_role (store : Store) (current_user_id : Int)
    (current_role : String) : List Dict :=
  if current_role == "admin" then
    store.map publicRow
  else if current_role == "supervisor" then
    (store.filter (fun u => u.rol == "supervisor" || u.rol == "usuario")).map publicRow
  else if current_role == "usuario" then
    (store.filter (fun u => u.id == current_user_id)).map publicRow
  else
    []

/-! ### Username derivation -/

/-- The ASCII whitespace characters that `str.split()` and `str.strip()`
split and trim on (the seed names contain no non-ASCII whitespace). -/
def isPyWhitespace (c : Char) : Bool :=
  c == ' ' || c == '\t' || c == '\n' || c == '\r' || c == '\x0b' || c == '\x0c'

/-- ASCII `[a-zA-Z0-9]`.  Models `str.isalnum()` on the diacritic-stripped
ASCII text it is applied to. -/
def isAsciiAlphanum (c : Char) : Bool :=
  c.isAlpha || c.isDigit

/-- Model of `unicodedata.normalize("NFKD", ...)` followed by removal of
combining marks, per character, for the precomposed Latin letters of the
seed-data domain; every other character decomposes to itself. -/
def stripDiacriticChar : Char → Char
  | 'á' => 'a'
  | 'à' => 'a'
  | 'â' => 'a'
  | 'ä' => 'a'
  | 'ã' => 'a'
  | 'Á' => 'A'
  | 'À' => 'A'
  | 'Â' => 'A'
  | 'Ä' => 'A'
  | 'Ã' => 'A'
  | 'é' => 'e'
  | 'è' => 'e'
  | 'ê' => 'e'
  | 'ë' => 'e'
  | 'É' => 'E'
  | 'È' => 'E'
  | 'Ê' => 'E'
  | 'Ë' => 'E'
  | 'í' => 'i'
  | 'ì' => 'i'
  | 'î' => 'i'
  | 'ï' => 'i'
  | 'Í' => 'I'
  | 'Ì' => 'I'
  | 'Î' => 'I'
  | 'Ï' => 'I'
  | 'ó' => 'o'
  | 'ò' => 'o'
  | 'ô' => 'o'
  | 'ö' => 'o'
  | 'õ' => 'o'
  | 'Ó' => 'O'
  | 'Ò' => 'O'
  | 'Ô' => 'O'
  | 'Ö' => 'O'
  | 'Õ' => 'O'
  | 'ú' => 'u'
  | 'ù' => 'u'
  | 'û' => 'u'
  | 'ü' => 'u'
  | 'Ú' => 'U'
  | 'Ù' => 'U'
  | 'Û' => 'U'
  | 'Ü' => 'U'
  | 'ñ' => 'n'
  | 'Ñ' => 'N'
  | c => c

/-- Model of `str.lower()` per character: ASCII case folding extended to
the accented Latin capitals of the domain. -/
def pyLowerChar : Char → Char
  | 'Á' => 'á'
  | 'À' => 'à'
  | 'Â' => 'â'
  | 'Ä' => 'ä'
  | 'Ã' => 'ã'
  | 'É' => 'é'
  | 'È' => 'è'
  | 'Ê' => 'ê'
  | 'Ë' => 'ë'
  | 'Í' => 'í'
  | 'Ì' => 'ì'
  | 'Î' => 'î'
  | 'Ï' => 'ï'
  | 'Ó' => 'ó'
  | 'Ò' => 'ò'
  | 'Ô' => 'ô'
  | 'Ö' => 'ö'
  | 'Õ' => 'õ'
  | 'Ú' => 'ú'
  | 'Ù' => 'ù'
  | 'Û' => 'û'
  | 'Ü' => 'ü'
  | 'Ñ' => 'ñ'
  | c => c.toLower

/-- Model of `str.strip()`: trim leading and trailing whitespace. -/
def pyStrip (cs : List Char) : List Char :=
  ((cs.dropWhile isPyWhitespace).reverse.dropWhile isPyWhitespace).reverse

/-- Accumulator version of `str.split()`: `acc` holds the reversed current
word. -/
def pySplitAux : List Char → List Char → List (List Char)
  | [], acc => if acc.isEmpty then [] else [acc.reverse]
  | c :: cs, acc =>
    if isPyWhitespace c then
      if acc.isEmpty then pySplitAux cs [] else acc.reverse :: pySplitAux cs []
    else
      pySplitAux cs (c :: acc)

/-- Model of `str.split()` (no argument): the maximal whitespace-free
words, with leading, trailing and repeated whitespace ignored. -/
def pySplit (cs : List Char) : List (List Char) :=
  pySplitAux cs []

/-- Model of `"_".join(words)`. -/
def joinUnderscore : List (List Char) → List Char
  | [] => []
  | [w] => w
  | w :: ws => w ++ '_' :: joinUnderscore ws

/-- Embedding of `app._slugify`: NFKD-decompose and drop combining marks,
lowercase, strip, replace whitespace runs by joining the split words with
an underscore, then keep only alphanumerics and underscores. -/
def slugify (s : String) : String :=
  ⟨(joinUnderscore (pySplit (pyStrip
      ((s.data.map stripDiacriticChar).map pyLowerChar)))).filter
    (fun c => isAsciiAlphanum c || c == '_')⟩

/-- The username `app.init_db` derives for a seed record:
`f"{_slugify(nombre)}_{id}"`. -/
def app_username (nombre : String) (id : Int) : String :=
  slugify nombre ++ "_" ++ toString id

/-- The username `db.init_db` derives for a seed record:
`f"{nombre.lower().replace(' ', '_')}_{id}"`. -/
def db_username (nombre : String) (id : Int) : String :=
  (⟨(nombre.data.map pyLowerChar).map (fun c => if c == ' ' then '_' else c)⟩ : String)
    ++ "_" ++ toString id

/-! ### Seeding -/

/-- One object of `data/usuarios.json`: `{id, nombre, rol, renta_mensual}`. -/
structure SeedUser where
  id : Int
  nombre : String
  rol : String
  renta_mensual : Rat
deriving DecidableEq, Repr

/-- The fixed bcrypt hash `db.TEST_PASSWORD_HASH`
(`$2b$12$92IXUNpkjO0rOQ5byMi.Ye...`), which per its own comment is a hash
of the plaintext "password"; its embedded salt is modelled by an arbitrary
fixed constant. -/
def TEST_PASSWORD_HASH : BcryptHash :=
  hashpw "password" 12

/-- Model of one `INSERT INTO usuarios ... VALUES (?, ...)` under the
PRIMARY KEY constraint on `id` and the UNIQUE constraint on `username`: a
conflicting row makes the statement raise `IntegrityError`, otherwise the
row is appended. -/
def insertUsuario (store : Store) (u : UserRecord) : Except String Store :=
  if store.any (fun v => v.id == u.id) then
    Except.error "UNIQUE constraint failed: usuarios.id"
  else if store.any (fun v => v.username == u.username) then
    Except.error "UNIQUE constraint failed: usuarios.username"
  else
    Except.ok (store ++ [u])

/-- The seeding insert loop, run inside the implicit transaction: the
first failing insert aborts the whole loop. -/
def insertAll (store : Store) (us : List UserRecord) : Except String Store :=
  us.foldlM insertUsuario store

/-- The row `app.init_db` builds for the seed record at position `k` of
the JSON list: derived username and a bcrypt hash of "password" under the
fresh salt `salts k` drawn from `bcrypt.gensalt()`. -/
def app_provision (salts : Nat → Nat) (k : Nat) (su : SeedUser) : UserRecord :=
  { id := su.id, nombre := su.nombre, rol := su.rol,
    renta_mensual := su.renta_mensual,
    username := app_username su.nombre su.id,
    password_hash := hashpw "password" (salts k) }

/-- All rows `app.init_db` inserts for a seed list. -/
def app_seedRows (salts : Nat → Nat) (seed : List SeedUser) : List UserRecord :=
  seed.enum.map (fun p => app_provision salts p.1 p.2)

/-- The row `db.init_db` builds for a seed record: its own username
derivation and the shared fixed hash. -/
def db_provision (su : SeedUser) : UserRecord :=
  { id := su.id, nombre := su.nombre, rol := su.rol,
    renta_mensual := su.renta_mensual,
    username := db_username su.nombre su.id,
    password_hash := TEST_PASSWORD_HASH }

/-- Embedding of `app.init_db`.  `input` is the outcome of opening and
parsing `data/usuarios.json` (an I/O or parse failure is `Except.error`);
`salts` enumerates the salts `bcrypt.gensalt()` returns, in order;
`reset_db` is the `RESET_DB=1` environment flag, whose `DELETE FROM
usuarios` is committed before seeding starts.  The result is the durable
store on success; on error nothing after the delete was committed. -/
def app_init_db (store : Store) (input : Except String (List SeedUser))
    (salts : Nat → Nat) (reset_db : Bool) : Except String Store :=
  let store := if reset_db then [] else store
  if store.length == 0 then
    match input with
    | Except.error e => Except.error e
    | Except.ok seed => insertAll store (app_seedRows salts seed)
  else
    Except.ok store

/-- The durable store after running `app.init_db`: when the startup
aborts, the uncommitted insert transaction is rolled back and the durable
state is the store as of the last commit (the post-delete store when
`RESET_DB=1`, the original store otherwise). -/
def app_init_db_run (store : Store) (input : Except String (List SeedUser))
    (salts : Nat → Nat) (reset_db : Bool) : Store :=
  match app_init_db store input salts reset_db with
  | Except.ok s => s
  | Except.error _ => if reset_db then [] else store

/-- Embedding of `db.init_db`: create the table, count, and seed only when
the table is empty; commit happens only after the whole insert loop. -/
def db_init_db (store : Store) (input : Except String (List SeedUser)) :
    Except String Store :=
  if store.length == 0 then
    match input with
    | Except.error e => Except.error e
    | Except.ok seed => insertAll store (seed.map db_provision)
  else
    Except.ok store

/-- The durable store after running `db.init_db`: on an abort the
`finally: conn.close()` drops the uncommitted transaction, leaving the
store as it was. -/
def db_init_db_run (store : Store) (input : Except String (List SeedUser)) :
    Store :=
  match db_init_db store input with
  | Except.ok s => s
  | Except.error _ => store

/-! ### The GET /usuarios boundary -/

/-- Python truthiness of a cookie value: `None` and the empty string are
falsy. -/
def pyTruthy : Option String → Bool
  | none => false
  | some t => !(t == "")

/-- State machine for the digit part of `int(str)`: Python allows single
underscores between digits, and the run must end in a digit. -/
def pyDigitsAux : List Char → Nat → Bool → Option Nat
  | [], acc, lastDigit => if lastDigit then some acc else none
  | c :: cs, acc, lastDigit =>
    if c.isDigit then
      pyDigitsAux cs (acc * 10 + (c.toNat - 48)) true
    else if c == '_' then
      if lastDigit then pyDigitsAux cs acc false else none
    else
      none

/-- The value of a nonempty digit-and-underscore run, when well formed. -/
def pyDigitsVal : List Char → Option Nat
  | [] => none
  | c :: cs => pyDigitsAux (c :: cs) 0 false

/-- Model of the built-in `int(str)`: strip whitespace, allow one optional
sign, then a well-formed decimal digit run; every other string raises
`ValueError`, modelled as `none`. -/
def pyIntOfString (s : String) : Option Int :=
  match pyStrip s.data with
  | '+' :: rest => (pyDigitsVal rest).map (fun n => (n : Int))
  | '-' :: rest => (pyDigitsVal rest).map (fun n => -(n : Int))
  | cs => (pyDigitsVal cs).map (fun n => (n : Int))

/-- The observable outcomes of the `GET /usuarios` handler. -/
inductive UsuariosResult where
  /-- A JSON list of public rows was returned. -/
  | ok : List Dict → UsuariosResult
  /-- `HTTPException(401, "No autenticado")` was raised. -/
  | unauthorized : UsuariosResult
  /-- An exception other than the defined 401 escaped the handler
  (the unguarded `int(user_id_cookie)` raised `ValueError`). -/
  | raised : UsuariosResult
deriving DecidableEq, Repr

/-- Embedding of the `GET /usuarios` handler `app.usuarios`: read the two
cookies, answer 401 when either is falsy, otherwise convert the
`user_id` cookie with `int(...)` (no exception handling) and delegate to
`app._get_users_for_role`. -/
def usuarios_handler (store : Store)
    (user_id_cookie role_cookie : Option String) : UsuariosResult :=
  if !(pyTruthy user_id_cookie) || !(pyTruthy role_cookie) then
    UsuariosResult.unauthorized
  else
    match pyIntOfString (user_id_cookie.getD "") with
    | none => UsuariosResult.raised
    | some uid => UsuariosResult.ok (app_get_users_for_role store uid (role_cookie.getD ""))

/-! ### Spec-side username derivation

Definitions written from the words of the specification, to be compared
with the source derivations above. -/

/-- Spec rule, separator classification: a character is collapsed into a
separator when it is whitespace or not alphanumeric. -/
def specSeparator (c : Char) : Bool :=
  isPyWhitespace c || !(isAsciiAlphanum c)

/-- Collapsing state machine: replaces each maximal run of separator
characters by a single underscore, except at the ends of the string.
`pending` records that a separator run is open after at least one kept
character. -/
def collapseAux (p : Char → Bool) : List Char → Bool → List Char
  | [], _ => []
  | c :: cs, pending =>
    if p c then
      collapseAux p cs true
    else if pending then
      '_' :: c :: collapseAux p cs false
    else
      c :: collapseAux p cs false

/-- Collapse every maximal run of `p`-characters to a single underscore,
dropping leading and trailing runs. -/
def collapseRuns (p : Char → Bool) (cs : List Char) : List Char :=
  collapseAux p (cs.dropWhile p) false

/-- Modelled from the spec: "normalize (strip diacritics, lowercase,
collapse whitespace/non-alphanumerics to a single separator), then append
`_<id>`". -/
def specDeriveUsername (nombre : String) (id : Int) : String :=
  (⟨collapseRuns specSeparator ((nombre.data.map stripDiacriticChar).map pyLowerChar)⟩ : String)
    ++ "_" ++ toString id

/-- The amended normalization rule: strip diacritics, lowercase, collapse
every whitespace run to a single separator (dropping leading and trailing
whitespace), then DELETE every remaining character that is neither
alphanumeric nor an underscore, and append `_<id>`. -/
def specAmendedUsername (nombre : String) (id : Int) : String :=
  (⟨(collapseRuns isPyWhitespace ((nombre.data.map stripDiacriticChar).map pyLowerChar)).filter
      (fun c => isAsciiAlphanum c || c == '_')⟩ : String)
    ++ "_" ++ toString id

/-! ### Concrete data used by the witnesses -/

/-- Demo rows mirroring the seeded table shape of section 8 of the spec. -/
def demoAna : UserRecord :=
  ⟨1, "Ana Admin", "admin", 1000, "ana_admin_1", hashpw "password" 101⟩

/-- Demo supervisor row. -/
def demoSaul : UserRecord :=
  ⟨2, "Saul Super", "supervisor", 900, "saul_super_2", hashpw "password" 102⟩

/-- Demo usuario row. -/
def demoUma : UserRecord :=
  ⟨3, "Uma User", "usuario", 800, "uma_user_3", hashpw "password" 103⟩

/-- Second demo usuario row. -/
def demoUgo : UserRecord :=
  ⟨4, "Ugo User", "usuario", 700, "ugo_user_4", hashpw "password" 104⟩

/-- A concrete seeded table: one admin, one supervisor, two usuarios. -/
def demoStore : Store :=
  [demoAna, demoSaul, demoUma, demoUgo]

/-! ### Helper lemmas -/

/-- Popping a key really removes it from the association list. -/
theorem lookup_dictPop (k : String) (d : Dict) :
    (dictPop k d).lookup k = none := by
  induction d with
  | nil => rfl
  | cons kv d ih =>
    by_cases h : kv.1 = k
    · simpa [dictPop, List.filter_cons, h] using ih
    · have hb : (kv.1 == k) = false := by simp [h]
      have hb2 : (k == kv.1) = false := by
        simp only [beq_eq_false_iff_ne, ne_eq]
        intro e
        exact h e.symm
      simpa [dictPop, List.filter_cons, hb, List.lookup, hb2] using ih

/-- The public four-column row carries no "password_hash" key. -/
theorem lookup_hash_publicRow (u : UserRecord) :
    (publicRow u).lookup "password_hash" = none := rfl

/-- The six-column auth row carries the hash under "password_hash". -/
theorem lookup_hash_authRow (u : UserRecord) :
    (authRow u).lookup "password_hash" = some (Value.vHash u.password_hash) := rfl

/-- In a store with pairwise distinct ids, filtering on one id keeps at
most one row. -/
theorem filter_id_length_le_one (c : Int) (l : Store)
    (h : l.Pairwise (fun u v => u.id ≠ v.id)) :
    (l.filter (fun u => u.id == c)).length ≤ 1 := by
  induction l with
  | nil => simp
  | cons a l ih =>
    rw [List.pairwise_cons] at h
    obtain ⟨ha, hl⟩ := h
    rw [List.filter_cons]
    by_cases hc : a.id = c
    · have hnil : l.filter (fun u => u.id == c) = [] := by
        rw [List.filter_eq_nil_iff]
        intro u hu
        simp only [beq_iff_eq]
        intro he
        exact (ha u hu) (hc.trans he.symm)
      simp [hc, hnil]
    · simp only [beq_iff_eq, hc]
      simpa using ih hl

/-! ### C1: role-scoped visibility is the exact partition -/

/-- C1.  For every store and caller, the visibility listing is exactly the
stated partition: admin sees every record; supervisor sees exactly the
records whose role is supervisor or usuario and never an admin record;
usuario sees exactly the records whose id equals the caller id (at most
one under the PRIMARY KEY invariant that ids are pairwise distinct); any
other role string gets the empty sequence; and the module-split
implementation agrees with the handler-embedded one. -/
theorem visibility_exact_partition (store : Store) (callerId : Int)
    (role : String) (hids : store.Pairwise (fun u v => u.id ≠ v.id)) :
    app_get_users_for_role store callerId "admin" = store.map publicRow ∧
    app_get_users_for_role store callerId "supervisor" =
      (store.filter (fun u => u.rol == "supervisor" || u.rol == "usuario")).map publicRow ∧
    (∀ d ∈ app_get_users_for_role store callerId "supervisor",
      d.lookup "rol" ≠ some (Value.vStr "admin")) ∧
    app_get_users_for_role store callerId "usuario" =
      (store.filter (fun u => u.id == callerId)).map publicRow ∧
    (app_get_users_for_role store callerId "usuario").length ≤ 1 ∧
    (role ≠ "admin" → role ≠ "supervisor" → role ≠ "usuario" →
      app_get_users_for_role store callerId role = []) ∧
    (∀ uid r, get_users_for_role store uid r = app_get_users_for_role store uid r) := by
  refine ⟨rfl, rfl, ?_, rfl, ?_, ?_, fun uid r => rfl⟩
  · intro d hd
    have hd : d ∈ (store.filter
        (fun u => u.rol == "supervisor" || u.rol == "usuario")).map publicRow := hd
    rw [List.mem_map] at hd
    obtain ⟨u, hu, rfl⟩ := hd
    rw [List.mem_filter] at hu
    intro habs
    have hrol : u.rol = "admin" := by
      have : (publicRow u).lookup "rol" = some (Value.vStr u.rol) := rfl
      rw [this] at habs
      injection habs with h1
      injection h1
    rw [hrol] at hu
    simp at hu
  · show ((store.filter (fun u => u.id == callerId)).map publicRow).length ≤ 1
    rw [List.length_map]
    exact filter_id_length_le_one callerId store hids
  · intro h1 h2 h3
    have e1 : (role == "admin") = false := by simp [h1]
    have e2 : (role == "supervisor") = false := by simp [h2]
    have e3 : (role == "usuario") = false := by simp [h3]
    simp [app_get_users_for_role, e1, e2, e3]

/-- Witness for C1 at a concrete four-row store and a concrete caller. -/
theorem visibility_exact_partition_witness :
    (app_get_users_for_role demoStore 3 "usuario").length ≤ 1 :=
  (visibility_exact_partition demoStore 3 "ghost" (by decide)).2.2.2.2.1

/-! ### C2: no secret leakage -/

/-- C2.  No dictionary returned by a successful authenticate call (either
implementation) and no element of any visibility listing carries the
"password_hash" key. -/
theorem no_password_hash_leak (store : Store) (username password : String)
    (callerId : Int) (callerRole : String) :
    (∀ d, authenticate_user store username password = some d →
      d.lookup "password_hash" = none) ∧
    (∀ d, app_authenticate_user store username password = some d →
      d.lookup "password_hash" = none) ∧
    (∀ d ∈ get_users_for_role store callerId callerRole,
      d.lookup "password_hash" = none) ∧
    (∀ d ∈ app_get_users_for_role store callerId callerRole,
      d.lookup "password_hash" = none) := by
  have hvis : ∀ d ∈ app_get_users_for_role store callerId callerRole,
      d.lookup "password_hash" = none := by
    intro d hd
    unfold app_get_users_for_role at hd
    split at hd
    · rw [List.mem_map] at hd
      obtain ⟨u, _, rfl⟩ := hd
      exact lookup_hash_publicRow u
    · split at hd
      · rw [List.mem_map] at hd
        obtain ⟨u, _, rfl⟩ := hd
        exact lookup_hash_publicRow u
      · split at hd
        · rw [List.mem_map] at hd
          obtain ⟨u, _, rfl⟩ := hd
          exact lookup_hash_publicRow u
        · simp at hd
  have hauth : ∀ d, authenticate_user store username password = some d →
      d.lookup "password_hash" = none := by
    intro d hd
    unfold authenticate_user get_user_auth_by_username at hd
    rcases hfind : store.find? (fun u => u.username == username) with _ | u
    · rw [hfind] at hd
      exact absurd hd (by simp)
    · rw [hfind] at hd
      simp only [lookup_hash_authRow] at hd
      by_cases hv : verify_password password u.password_hash
      · rw [if_pos hv] at hd
        injection hd with hd
        rw [← hd]
        exact lookup_dictPop _ _
      · rw [if_neg hv] at hd
        exact absurd hd (by simp)
  have happauth : ∀ d, app_authenticate_user store username password = some d →
      d.lookup "password_hash" = none := by
    intro d hd
    unfold app_authenticate_user app_get_user_by_username at hd
    rcases hfind : store.find? (fun u => u.username == username) with _ | u
    · rw [hfind] at hd
      exact absurd hd (by simp)
    · rw [hfind] at hd
      simp only [lookup_hash_authRow] at hd
      by_cases hv : checkpw password u.password_hash
      · rw [if_pos hv] at hd
        injection hd with hd
        rw [← hd]
        exact lookup_dictPop _ _
      · rw [if_neg hv] at hd
        exact absurd hd (by simp)
  exact ⟨hauth, happauth, fun d hd => hvis d hd, hvis⟩

/-- Witness for C2: a concrete successful login whose returned dictionary
has no hash key. -/
theorem no_password_hash_leak_witness :
    ([("id", Value.vInt 3), ("nombre", Value.vStr "Uma User"),
      ("rol", Value.vStr "usuario"), ("renta_mensual", Value.vRat 800),
      ("username", Value.vStr "uma_user_3")] : Dict).lookup "password_hash" =
      none :=
  (no_password_hash_leak demoStore "uma_user_3" "password" 1 "admin").1 _ rfl

/-! ### C3: failure indistinguishability of authenticate -/

/-- C3.  Both authenticate implementations return the single failure value
`None` both when the username is absent and when the username resolves to
a row whose hash does not verify; no other failure shape exists. -/
theorem auth_single_failure_shape (store : Store) (username password : String) :
    (store.find? (fun u => u.username == username) = none →
      authenticate_user store username password = none ∧
      app_authenticate_user store username password = none) ∧
    (∀ u, store.find? (fun u => u.username == username) = some u →
      checkpw password u.password_hash = false →
      authenticate_user store username password = none ∧
      app_authenticate_user store username password = none) := by
  constructor
  · intro hfind
    constructor
    · unfold authenticate_user get_user_auth_by_username
      rw [hfind]
    · unfold app_authenticate_user app_get_user_by_username
      rw [hfind]
  · intro u hfind hbad
    constructor
    · unfold authenticate_user get_user_auth_by_username
      rw [hfind]
      simp only [lookup_hash_authRow]
      rw [if_neg (by simp [verify_password, hbad])]
    · unfold app_authenticate_user app_get_user_by_username
      rw [hfind]
      simp only [lookup_hash_authRow]
      rw [if_neg (by simp [hbad])]

/-- Witness for C3: an unknown username and a wrong password both map to
the same `None` outcome on the demo store. -/
theorem auth_single_failure_shape_witness :
    (authenticate_user demoStore "no-such-user" "x" = none ∧
      app_authenticate_user demoStore "no-such-user" "x" = none) ∧
    (authenticate_user demoStore "uma_user_3" "wrong" = none ∧
      app_authenticate_user demoStore "uma_user_3" "wrong" = none) :=
  ⟨(auth_single_failure_shape demoStore "no-such-user" "x").1 rfl,
   (auth_single_failure_shape demoStore "uma_user_3" "wrong").2 demoUma rfl rfl⟩

/-! ### C10: the GET /usuarios handler on non-numeric session values -/

/-- C10.  With both cookies present and non-empty but a `user_id` cookie
that `int(...)` cannot parse, the handler neither returns a list nor the
defined 401 failure: the unguarded conversion raises. -/
theorem usuarios_nonnumeric_cookie_raises (store : Store)
    (uid role : String) (huid : uid ≠ "") (hrole : role ≠ "")
    (hparse : pyIntOfString uid = none) :
    usuarios_handler store (some uid) (some role) = UsuariosResult.raised ∧
    (∀ l, usuarios_handler store (some uid) (some role) ≠ UsuariosResult.ok l) ∧
    usuarios_handler store (some uid) (some role) ≠ UsuariosResult.unauthorized := by
  have h : usuarios_handler store (some uid) (some role) = UsuariosResult.raised := by
    unfold usuarios_handler
    have e1 : pyTruthy (some uid) = true := by simp [pyTruthy, huid]
    have e2 : pyTruthy (some role) = true := by simp [pyTruthy, hrole]
    rw [e1, e2]
    simp only [Bool.not_true, Bool.or_self, Bool.false_eq_true, if_false]
    simp [hparse]
  exact ⟨h, fun l => by rw [h]; exact fun habs => by injection habs,
    by rw [h]; exact fun habs => by injection habs⟩

/-- Witness for C10: the cookie "abc" raises. -/
theorem usuarios_nonnumeric_cookie_raises_witness :
    usuarios_handler demoStore (some "abc") (some "usuario") =
      UsuariosResult.raised :=
  (usuarios_nonnumeric_cookie_raises demoStore "abc" "usuario"
    (by decide) (by decide) rfl).1

/-! ### Seeding lemmas -/

/-- Unfolding of the insert loop on a first row. -/
theorem insertAll_cons (store : Store) (u : UserRecord) (us : List UserRecord) :
    insertAll store (u :: us) =
      match insertUsuario store u with
      | Except.ok s => insertAll s us
      | Except.error e => Except.error e := by
  unfold insertAll
  rw [List.foldlM_cons]
  cases h : insertUsuario store u <;> rfl

/-- A successful constrained insert appends the row and certifies that no
existing row shares its id or username. -/
theorem insertUsuario_ok {store : Store} {u : UserRecord} {s : Store}
    (h : insertUsuario store u = Except.ok s) :
    s = store ++ [u] ∧ (∀ v ∈ store, v.id ≠ u.id) ∧
      (∀ v ∈ store, v.username ≠ u.username) := by
  unfold insertUsuario at h
  by_cases h1 : store.any (fun v => v.id == u.id) = true
  · rw [if_pos h1] at h
    exact absurd h (by simp)
  · rw [if_neg h1] at h
    by_cases h2 : store.any (fun v => v.username == u.username) = true
    · rw [if_pos h2] at h
      exact absurd h (by simp)
    · rw [if_neg h2] at h
      injection h with h
      refine ⟨h.symm, ?_, ?_⟩
      · intro v hv
        rw [List.any_eq_true] at h1
        push_neg at h1
        simpa using h1 v hv
      · intro v hv
        rw [List.any_eq_true] at h2
        push_neg at h2
        simpa using h2 v hv

/-- A successful insert loop appends exactly the given rows. -/
theorem insertAll_ok {us : List UserRecord} : ∀ {store s : Store},
    insertAll store us = Except.ok s → s = store ++ us := by
  induction us with
  | nil =>
    intro store s h
    injection h with h
    simp [h.symm]
  | cons u us ih =>
    intro store s h
    rw [insertAll_cons] at h
    cases hu : insertUsuario store u with
    | error e =>
      rw [hu] at h
      exact absurd h (by simp)
    | ok s1 =>
      rw [hu] at h
      obtain ⟨h1, -, -⟩ := insertUsuario_ok hu
      subst h1
      simpa using ih h

/-- The insert loop, thanks to the UNIQUE constraint, preserves pairwise
distinctness of usernames. -/
theorem insertAll_unique_usernames {us : List UserRecord} : ∀ {store s : Store},
    insertAll store us = Except.ok s →
    store.Pairwise (fun u v => u.username ≠ v.username) →
    s.Pairwise (fun u v => u.username ≠ v.username) := by
  induction us with
  | nil =>
    intro store s h h0
    injection h with h
    exact h ▸ h0
  | cons u us ih =>
    intro store s h h0
    rw [insertAll_cons] at h
    cases hu : insertUsuario store u with
    | error e =>
      rw [hu] at h
      exact absurd h (by simp)
    | ok s1 =>
      rw [hu] at h
      obtain ⟨h1, -, hn⟩ := insertUsuario_ok hu
      apply ih h
      subst h1
      rw [List.pairwise_append]
      refine ⟨h0, List.pairwise_singleton _ _, ?_⟩
      intro a ha b hb
      rw [List.mem_singleton] at hb
      subst hb
      exact hn a ha

/-- Seeding a non-empty store (without the reset flag) is a no-op. -/
theorem app_init_db_nonempty (store : Store)
    (input : Except String (List SeedUser)) (salts : Nat → Nat)
    (h : store ≠ []) :
    app_init_db store input salts false = Except.ok store := by
  cases store with
  | nil => exact absurd rfl h
  | cons a l => rfl

/-- Seeding a non-empty store via the module-split seeder is a no-op. -/
theorem db_init_db_nonempty (store : Store)
    (input : Except String (List SeedUser)) (h : store ≠ []) :
    db_init_db store input = Except.ok store := by
  cases store with
  | nil => exact absurd rfl h
  | cons a l => rfl

/-- Successful app seeding of the empty store yields exactly the
provisioned rows. -/
theorem app_init_db_empty_ok {input : Except String (List SeedUser)}
    {salts : Nat → Nat} {s : Store}
    (h : app_init_db [] input salts false = Except.ok s) :
    ∃ seed, input = Except.ok seed ∧ s = app_seedRows salts seed := by
  unfold app_init_db at h
  cases input with
  | error e => exact absurd h (by simp)
  | ok seed =>
    simp only [List.length_nil] at h
    refine ⟨seed, rfl, ?_⟩
    simpa using insertAll_ok h

/-- Successful db seeding of the empty store yields exactly the
provisioned rows. -/
theorem db_init_db_empty_ok {input : Except String (List SeedUser)} {s : Store}
    (h : db_init_db [] input = Except.ok s) :
    ∃ seed, input = Except.ok seed ∧ s = seed.map db_provision := by
  unfold db_init_db at h
  cases input with
  | error e => exact absurd h (by simp)
  | ok seed =>
    simp only [List.length_nil] at h
    refine ⟨seed, rfl, ?_⟩
    simpa using insertAll_ok h

/-! ### C6: idempotent seeding -/

/-- C6.  Both seeders are idempotent: on a store that already holds at
least one record they insert nothing and leave the store unchanged; a
second run after a successful bootstrap returns the store of the first
run; and a store seeded from empty never holds two rows with the same
username. -/
theorem seeding_idempotent (store : Store)
    (input : Except String (List SeedUser)) (salts : Nat → Nat)
    (hne : store ≠ []) :
    app_init_db store input salts false = Except.ok store ∧
    db_init_db store input = Except.ok store ∧
    (∀ s, app_init_db [] input salts false = Except.ok s →
      app_init_db s input salts false = Except.ok s) ∧
    (∀ s, db_init_db [] input = Except.ok s →
      db_init_db s input = Except.ok s) ∧
    (∀ s, app_init_db [] input salts false = Except.ok s →
      s.Pairwise (fun u v => u.username ≠ v.username)) ∧
    (∀ s, db_init_db [] input = Except.ok s →
      s.Pairwise (fun u v => u.username ≠ v.username)) := by
  refine ⟨app_init_db_nonempty store input salts hne,
    db_init_db_nonempty store input hne, ?_, ?_, ?_, ?_⟩
  · intro s h
    obtain ⟨seed, hin, hs⟩ := app_init_db_empty_ok h
    by_cases hz : s = []
    · subst hz
      exact h
    · exact app_init_db_nonempty s input salts hz
  · intro s h
    obtain ⟨seed, hin, hs⟩ := db_init_db_empty_ok h
    by_cases hz : s = []
    · subst hz
      exact h
    · exact db_init_db_nonempty s input hz
  · intro s h
    unfold app_init_db at h
    cases input with
    | error e => exact absurd h (by simp)
    | ok seed =>
      simp only [List.length_nil] at h
      exact insertAll_unique_usernames (by simpa using h) List.Pairwise.nil
  · intro s h
    unfold db_init_db at h
    cases input with
    | error e => exact absurd h (by simp)
    | ok seed =>
      simp only [List.length_nil] at h
      exact insertAll_unique_usernames (by simpa using h) List.Pairwise.nil

/-- Witness for C6: re-running the seeders on the already-populated demo
store changes nothing. -/
theorem seeding_idempotent_witness :
    app_init_db demoStore (Except.ok []) (fun k => k) false =
      Except.ok demoStore :=
  (seeding_idempotent demoStore (Except.ok []) (fun k => k) (by decide)).1

/-! ### C9: seeding is atomic -/

/-- C9.  For every seed input (including parse or I/O failures, and a
failing insert mid-loop), the durable store after running either seeder on
an empty store is all-or-nothing: either still empty, or exactly the full
list of provisioned rows; no proper prefix survives. -/
theorem seeding_atomic (input : Except String (List SeedUser))
    (salts : Nat → Nat) :
    (app_init_db_run [] input salts false = [] ∨
      ∃ seed, input = Except.ok seed ∧
        app_init_db_run [] input salts false = app_seedRows salts seed) ∧
    (db_init_db_run [] input = [] ∨
      ∃ seed, input = Except.ok seed ∧
        db_init_db_run [] input = seed.map db_provision) := by
  constructor
  · unfold app_init_db_run
    cases h : app_init_db [] input salts false with
    | error e => simp
    | ok s =>
      obtain ⟨seed, hin, hs⟩ := app_init_db_empty_ok h
      exact Or.inr ⟨seed, hin, hs⟩
  · unfold db_init_db_run
    cases h : db_init_db [] input with
    | error e => simp
    | ok s =>
      obtain ⟨seed, hin, hs⟩ := db_init_db_empty_ok h
      exact Or.inr ⟨seed, hin, hs⟩

/-! ### C4: password hash uniqueness -/

/-- First concrete seed record. -/
def seedAna : SeedUser := ⟨1, "Ana", "usuario", 100⟩

/-- Second concrete seed record. -/
def seedLuis : SeedUser := ⟨2, "Luis", "usuario", 200⟩

/-- A two-record seed list. -/
def seedTwo : List SeedUser := [seedAna, seedLuis]

/-- The store `db.init_db` produces from `seedTwo`. -/
def dbSeededTwo : Store := [db_provision seedAna, db_provision seedLuis]

/-- Counterexample to C4 as stated: seeding the empty store with the
module-split seeder `db.init_db` from a two-record seed list yields two
distinct user records with the SAME stored password hash, because every
row gets the fixed `TEST_PASSWORD_HASH`. -/
theorem hash_uniqueness_counterexample :
    db_init_db [] (Except.ok seedTwo) = Except.ok dbSeededTwo ∧
    2 ≤ dbSeededTwo.length ∧
    dbSeededTwo.get ⟨0, by decide⟩ ≠ dbSeededTwo.get ⟨1, by decide⟩ ∧
    (dbSeededTwo.get ⟨0, by decide⟩).password_hash =
      (dbSeededTwo.get ⟨1, by decide⟩).password_hash :=
  ⟨rfl, by decide, by decide, rfl⟩

/-- Every pair in an enumeration has strictly increasing indices (helper
for the fresh-salt argument). -/
theorem fst_le_of_mem_enumFrom {α : Type} {l : List α} :
    ∀ {n : Nat} {p : Nat × α}, p ∈ l.enumFrom n → n ≤ p.1 := by
  induction l with
  | nil =>
    intro n p h
    simp [List.enumFrom] at h
  | cons a l ih =>
    intro n p h
    rw [show List.enumFrom n (a :: l) = (n, a) :: List.enumFrom (n + 1) l from rfl]
      at h
    rcases List.mem_cons.mp h with h | h
    · subst h
      exact Nat.le_refl n
    · exact Nat.le_of_succ_le (ih h)

/-- The indices of an enumeration are pairwise strictly increasing. -/
theorem enumFrom_pairwise_fst_lt {α : Type} (l : List α) :
    ∀ n : Nat, (l.enumFrom n).Pairwise (fun p q => p.1 < q.1) := by
  induction l with
  | nil =>
    intro n
    exact List.Pairwise.nil
  | cons a l ih =>
    intro n
    rw [show List.enumFrom n (a :: l) = (n, a) :: List.enumFrom (n + 1) l from rfl]
    exact List.Pairwise.cons
      (fun q hq => Nat.lt_of_succ_le (fst_le_of_mem_enumFrom hq)) (ih (n + 1))

/-- C4 amended.  Hash uniqueness holds for the handler-embedded seeder
`app.init_db`, which draws a fresh salt per user: whenever the generated
salts are pairwise distinct, the seeded store has pairwise distinct
password hashes.  The module-split seeder `db.init_db` instead stores the
identical fixed `TEST_PASSWORD_HASH` for every user. -/
theorem hash_uniqueness_amended (seed : List SeedUser) (salts : Nat → Nat)
    (s : Store) (hinj : Function.Injective salts)
    (happ : app_init_db [] (Except.ok seed) salts false = Except.ok s) :
    s.Pairwise (fun u v => u.password_hash ≠ v.password_hash) ∧
    (∀ t, db_init_db [] (Except.ok seed) = Except.ok t →
      ∀ u ∈ t, u.password_hash = TEST_PASSWORD_HASH) := by
  constructor
  · obtain ⟨seed1, hin, hs⟩ := app_init_db_empty_ok happ
    injection hin with hin
    subst hin
    subst hs
    unfold app_seedRows
    rw [List.pairwise_map]
    have henum := enumFrom_pairwise_fst_lt seed 0
    refine List.Pairwise.imp ?_ henum
    intro p q hlt
    unfold app_provision hashpw
    intro habs
    injection habs with hsalt _
    exact absurd (hinj hsalt) (Nat.ne_of_lt hlt)
  · intro t ht u hu
    obtain ⟨seed1, hin, hs⟩ := db_init_db_empty_ok ht
    injection hin with hin
    subst hin
    subst hs
    rw [List.mem_map] at hu
    obtain ⟨su, -, rfl⟩ := hu
    rfl

/-- Witness for C4 amended: the identity salt stream is injective and the
two app-seeded rows from `seedTwo` carry distinct hashes. -/
theorem hash_uniqueness_amended_witness :
    (app_seedRows (fun k => k) seedTwo).Pairwise
      (fun u v => u.password_hash ≠ v.password_hash) :=
  (hash_uniqueness_amended seedTwo (fun k => k)
    (app_seedRows (fun k => k) seedTwo) (fun _ _ h => h) rfl).1

/-! ### C5: authentication against a freshly seeded store -/

/-- In a store with pairwise distinct usernames, the username lookup of a
member returns exactly that member. -/
theorem find?_username_self {s : Store}
    (hs : s.Pairwise (fun u v => u.username ≠ v.username)) {u : UserRecord}
    (hu : u ∈ s) :
    s.find? (fun v => v.username == u.username) = some u := by
  induction s with
  | nil => cases hu
  | cons a s ih =>
    rw [List.pairwise_cons] at hs
    obtain ⟨ha, hs⟩ := hs
    rcases List.mem_cons.mp hu with h | h
    · subst h
      rw [List.find?_cons_of_pos]
      simp
    · rw [List.find?_cons_of_neg]
      · exact ih hs h
      · simp
        exact ha u h

/-- Rows provisioned by either seeder hash the plaintext "password". -/
theorem seeded_pw_is_password {seed : List SeedUser} {salts : Nat → Nat}
    {s : Store}
    (hs : app_init_db [] (Except.ok seed) salts false = Except.ok s ∨
      db_init_db [] (Except.ok seed) = Except.ok s) :
    (∀ u ∈ s, u.password_hash.pw = "password") ∧
    s.Pairwise (fun u v => u.username ≠ v.username) := by
  rcases hs with h | h
  · constructor
    · obtain ⟨seed1, hin, hsrows⟩ := app_init_db_empty_ok h
      subst hsrows
      intro u hu
      unfold app_seedRows at hu
      rw [List.mem_map] at hu
      obtain ⟨p, -, rfl⟩ := hu
      rfl
    · unfold app_init_db at h
      simp only [List.length_nil] at h
      exact insertAll_unique_usernames (by simpa using h) List.Pairwise.nil
  · constructor
    · obtain ⟨seed1, hin, hsrows⟩ := db_init_db_empty_ok h
      subst hsrows
      intro u hu
      rw [List.mem_map] at hu
      obtain ⟨su, -, rfl⟩ := hu
      rfl
    · unfold db_init_db at h
      simp only [List.length_nil] at h
      exact insertAll_unique_usernames (by simpa using h) List.Pairwise.nil

/-- C5.  Against a store freshly seeded by either seeder: authenticating
any seeded user with the default plaintext "password" succeeds (returning
the hash-free row); authenticating a seeded user with any other password
fails with `None`; and authenticating any username absent from the store
fails with the same `None` shape, under both authenticate
implementations. -/
theorem seeded_auth_correctness (seed : List SeedUser) (salts : Nat → Nat)
    (s : Store)
    (hs : app_init_db [] (Except.ok seed) salts false = Except.ok s ∨
      db_init_db [] (Except.ok seed) = Except.ok s) :
    (∀ u ∈ s, authenticate_user s u.username "password" =
        some (dictPop "password_hash" (authRow u)) ∧
      app_authenticate_user s u.username "password" =
        some (dictPop "password_hash" (authRow u))) ∧
    (∀ u ∈ s, ∀ p, p ≠ "password" →
      authenticate_user s u.username p = none ∧
      app_authenticate_user s u.username p = none) ∧
    (∀ w, (∀ u ∈ s, u.username ≠ w) → ∀ p,
      authenticate_user s w p = none ∧
      app_authenticate_user s w p = none) := by
  obtain ⟨hpw, huniq⟩ := seeded_pw_is_password hs
  refine ⟨?_, ?_, ?_⟩
  · intro u hu
    have hfind := find?_username_self huniq hu
    have hver : checkpw "password" u.password_hash = true := by
      unfold checkpw
      rw [hpw u hu]
      rfl
    constructor
    · unfold authenticate_user get_user_auth_by_username
      rw [hfind]
      simp only [lookup_hash_authRow]
      rw [if_pos (by simpa [verify_password] using hver)]
    · unfold app_authenticate_user app_get_user_by_username
      rw [hfind]
      simp only [lookup_hash_authRow]
      rw [if_pos hver]
  · intro u hu p hp
    have hfind := find?_username_self huniq hu
    have hver : checkpw p u.password_hash = false := by
      unfold checkpw
      rw [hpw u hu]
      exact beq_eq_false_iff_ne.mpr fun e => hp e.symm
    constructor
    · unfold authenticate_user get_user_auth_by_username
      rw [hfind]
      simp only [lookup_hash_authRow]
      rw [if_neg (by simp [verify_password, hver])]
    · unfold app_authenticate_user app_get_user_by_username
      rw [hfind]
      simp only [lookup_hash_authRow]
      rw [if_neg (by simp [hver])]
  · intro w hw p
    have hfind : s.find? (fun v => v.username == w) = none := by
      rw [List.find?_eq_none]
      intro x hx
      simp
      exact hw x hx
    constructor
    · unfold authenticate_user get_user_auth_by_username
      rw [hfind]
    · unfold app_authenticate_user app_get_user_by_username
      rw [hfind]

/-- Witness for C5: on the db-seeded two-user store, the first seeded user
logs in with "password". -/
theorem seeded_auth_correctness_witness :
    authenticate_user dbSeededTwo (db_provision seedAna).username "password" =
      some (dictPop "password_hash" (authRow (db_provision seedAna))) :=
  ((seeded_auth_correctness seedTwo (fun k => k) dbSeededTwo
    (Or.inr rfl)).1 (db_provision seedAna) (by decide)).1

/-! ### C8: the two username derivations disagree -/

/-- C8.  The handler-embedded derivation (`app._slugify` plus id suffix)
and the module-split derivation (`db.init_db`, lowercase and replace
spaces) are not extensionally equal: they disagree on a display name with
a diacritic, since only the former strips diacritics. -/
theorem username_derivations_inconsistent :
    (∃ nombre : String, ∃ id : Int,
      app_username nombre id ≠ db_username nombre id) ∧
    app_username "José" 1 ≠ db_username "José" 1 ∧
    app_username "José" 1 = "jose_1" ∧
    db_username "José" 1 = "josé_1" :=
  ⟨⟨"José", 1, by decide⟩, by decide, rfl, rfl⟩

/-! ### C7: username derivation versus the spec rule -/

/-- Counterexample to C7 as stated: `app._slugify` DELETES a
non-alphanumeric, non-whitespace character, while the spec rule collapses
it to a separator, so the derived usernames differ on the name "a-b". -/
theorem username_spec_rule_counterexample :
    app_username "a-b" 1 ≠ specDeriveUsername "a-b" 1 ∧
    app_username "a-b" 1 = "ab_1" ∧
    specDeriveUsername "a-b" 1 = "a_b_1" :=
  ⟨by decide, rfl, rfl⟩

/-- Splitting with a nonempty open word never produces the empty word
list. -/
theorem pySplitAux_ne_nil (cs : List Char) :
    ∀ acc, acc ≠ [] → pySplitAux cs acc ≠ [] := by
  induction cs with
  | nil =>
    intro acc h
    unfold pySplitAux
    simp [h]
  | cons c cs ih =>
    intro acc h
    unfold pySplitAux
    by_cases hc : isPyWhitespace c = true
    · rw [if_pos hc]
      have hne : acc.isEmpty = false := by simp [h]
      rw [hne]
      simp
    · rw [if_neg hc]
      exact ih (c :: acc) (by simp)

/-- Joining a two-or-more word list inserts one separator after the first
word. -/
theorem joinUnderscore_cons_ne (w : List Char) {ws : List (List Char)}
    (h : ws ≠ []) :
    joinUnderscore (w :: ws) = w ++ '_' :: joinUnderscore ws := by
  cases ws with
  | nil => exact absurd rfl h
  | cons v ws => rfl

/-- Invariant of the split-and-join pipeline against the collapsing state
machine: with an open word the join is the word followed by the
pending-free collapse, and prefixing a closed word corresponds to the
pending collapse. -/
theorem join_pySplitAux (cs : List Char) :
    (∀ acc, acc ≠ [] →
      joinUnderscore (pySplitAux cs acc) =
        acc.reverse ++ collapseAux isPyWhitespace cs false) ∧
    (∀ w, joinUnderscore (w :: pySplitAux cs []) =
      w ++ collapseAux isPyWhitespace cs true) := by
  induction cs with
  | nil =>
    constructor
    · intro acc h
      have hne : acc.isEmpty = false := by simp [h]
      unfold pySplitAux
      rw [hne]
      simp [joinUnderscore, collapseAux]
    · intro w
      unfold pySplitAux
      simp [joinUnderscore, collapseAux]
  | cons c cs ih =>
    obtain ⟨ih1, ih2⟩ := ih
    constructor
    · intro acc h
      have hne : acc.isEmpty = false := by simp [h]
      by_cases hc : isPyWhitespace c = true
      · have hsplit : pySplitAux (c :: cs) acc =
            acc.reverse :: pySplitAux cs [] := by
          simp only [pySplitAux]
          rw [if_pos hc, if_neg (by simp [hne])]
        rw [hsplit, ih2 acc.reverse]
        have hcol : collapseAux isPyWhitespace (c :: cs) false =
            collapseAux isPyWhitespace cs true := by
          simp only [collapseAux]
          rw [if_pos hc]
        rw [hcol]
      · have hsplit : pySplitAux (c :: cs) acc = pySplitAux cs (c :: acc) := by
          simp only [pySplitAux]
          rw [if_neg hc]
        rw [hsplit, ih1 (c :: acc) (by simp)]
        have hcol : collapseAux isPyWhitespace (c :: cs) false =
            c :: collapseAux isPyWhitespace cs false := by
          simp only [collapseAux]
          rw [if_neg hc]
          rfl
        rw [hcol]
        simp
    · intro w
      by_cases hc : isPyWhitespace c = true
      · have hsplit : pySplitAux (c :: cs) ([] : List Char) =
            pySplitAux cs [] := by
          simp only [pySplitAux]
          rw [if_pos hc]
          rfl
        rw [hsplit, ih2 w]
        have hcol : collapseAux isPyWhitespace (c :: cs) true =
            collapseAux isPyWhitespace cs true := by
          simp only [collapseAux]
          rw [if_pos hc]
        rw [hcol]
      · have hsplit : pySplitAux (c :: cs) ([] : List Char) =
            pySplitAux cs [c] := by
          simp only [pySplitAux]
          rw [if_neg hc]
        have hne := pySplitAux_ne_nil cs [c] (by simp)
        rw [hsplit, joinUnderscore_cons_ne w hne, ih1 [c] (by simp)]
        have hcol : collapseAux isPyWhitespace (c :: cs) true =
            '_' :: c :: collapseAux isPyWhitespace cs false := by
          simp only [collapseAux]
          rw [if_neg hc]
          rfl
        rw [hcol]
        simp

/-- The Python split-and-join pipeline equals the run-collapsing state
machine. -/
theorem join_pySplit_eq_collapse (cs : List Char) :
    joinUnderscore (pySplit cs) = collapseRuns isPyWhitespace cs := by
  induction cs with
  | nil => rfl
  | cons c cs ih =>
    unfold pySplit at *
    unfold collapseRuns at *
    by_cases hc : isPyWhitespace c = true
    · have h1 : pySplitAux (c :: cs) ([] : List Char) = pySplitAux cs [] := by
        simp only [pySplitAux]
        rw [if_pos hc]
        rfl
      have h2 : (c :: cs).dropWhile isPyWhitespace =
          cs.dropWhile isPyWhitespace := by
        rw [List.dropWhile_cons]
        simp [hc]
      rw [h1, h2]
      exact ih
    · have h1 : pySplitAux (c :: cs) ([] : List Char) = pySplitAux cs [c] := by
        simp only [pySplitAux]
        rw [if_neg hc]
      have h2 : (c :: cs).dropWhile isPyWhitespace = c :: cs := by
        rw [List.dropWhile_cons]
        simp [hc]
      rw [h1, h2, (join_pySplitAux cs).1 [c] (by simp)]
      have hcol : collapseAux isPyWhitespace (c :: cs) false =
          c :: collapseAux isPyWhitespace cs false := by
        simp only [collapseAux]
        rw [if_neg hc]
        rfl
      rw [hcol]
      simp

/-- The collapsing state machine returns nothing on all-whitespace
input. -/
theorem collapseAux_all_ws (run : List Char)
    (hrun : ∀ c ∈ run, isPyWhitespace c = true) :
    ∀ pending, collapseAux isPyWhitespace run pending = [] := by
  induction run with
  | nil =>
    intro pending
    rfl
  | cons c run ih =>
    intro pending
    unfold collapseAux
    rw [if_pos (hrun c (List.mem_cons_self c run))]
    exact ih (fun d hd => hrun d (List.mem_cons_of_mem c hd)) true

/-- Trailing whitespace never affects the collapse. -/
theorem collapseAux_append_ws (run : List Char)
    (hrun : ∀ c ∈ run, isPyWhitespace c = true) :
    ∀ cs pending, collapseAux isPyWhitespace (cs ++ run) pending =
      collapseAux isPyWhitespace cs pending := by
  intro cs
  induction cs with
  | nil =>
    intro pending
    simp only [List.nil_append]
    rw [collapseAux_all_ws run hrun pending]
    rfl
  | cons c cs ih =>
    intro pending
    simp only [List.cons_append]
    by_cases hc : isPyWhitespace c = true
    · have e1 : collapseAux isPyWhitespace (c :: (cs ++ run)) pending =
          collapseAux isPyWhitespace (cs ++ run) true := by
        simp only [collapseAux]
        rw [if_pos hc]
      have e2 : collapseAux isPyWhitespace (c :: cs) pending =
          collapseAux isPyWhitespace cs true := by
        simp only [collapseAux]
        rw [if_pos hc]
      rw [e1, e2]
      exact ih true
    · cases pending with
      | false =>
        have e1 : collapseAux isPyWhitespace (c :: (cs ++ run)) false =
            c :: collapseAux isPyWhitespace (cs ++ run) false := by
          simp only [collapseAux]
          rw [if_neg hc]
          rfl
        have e2 : collapseAux isPyWhitespace (c :: cs) false =
            c :: collapseAux isPyWhitespace cs false := by
          simp only [collapseAux]
          rw [if_neg hc]
          rfl
        rw [e1, e2, ih false]
      | true =>
        have e1 : collapseAux isPyWhitespace (c :: (cs ++ run)) true =
            '_' :: c :: collapseAux isPyWhitespace (cs ++ run) false := by
          simp only [collapseAux]
          rw [if_neg hc]
          rfl
        have e2 : collapseAux isPyWhitespace (c :: cs) true =
            '_' :: c :: collapseAux isPyWhitespace cs false := by
          simp only [collapseAux]
          rw [if_neg hc]
          rfl
        rw [e1, e2, ih false]

/-- A list splits into its right-trimmed core and an all-whitespace
tail. -/
theorem stripRight_decomp (l : List Char) :
    l = (l.reverse.dropWhile isPyWhitespace).reverse ++
        (l.reverse.takeWhile isPyWhitespace).reverse ∧
    ∀ c ∈ (l.reverse.takeWhile isPyWhitespace).reverse,
      isPyWhitespace c = true := by
  constructor
  · conv_lhs => rw [← l.reverse_reverse,
      ← List.takeWhile_append_dropWhile (p := isPyWhitespace) (l := l.reverse)]
    rw [List.reverse_append]
  · intro c hc
    rw [List.mem_reverse] at hc
    exact List.mem_takeWhile_imp hc

/-- The head of a dropWhile result fails the predicate. -/
theorem dropWhile_head_not (cs : List Char) :
    cs.dropWhile isPyWhitespace = [] ∨
    ∃ hd tl, cs.dropWhile isPyWhitespace = hd :: tl ∧
      isPyWhitespace hd = false := by
  induction cs with
  | nil => exact Or.inl rfl
  | cons c cs ih =>
    rw [List.dropWhile_cons]
    by_cases hc : isPyWhitespace c = true
    · simpa [hc] using ih
    · right
      exact ⟨c, cs, by simp [hc], by simpa using hc⟩

/-- Stripping the string first does not change the collapse. -/
theorem collapse_strip_invariant (cs : List Char) :
    collapseRuns isPyWhitespace (pyStrip cs) =
      collapseRuns isPyWhitespace cs := by
  obtain ⟨hdec, hws⟩ := stripRight_decomp (cs.dropWhile isPyWhitespace)
  unfold pyStrip collapseRuns
  have hrhs : collapseAux isPyWhitespace (cs.dropWhile isPyWhitespace) false =
      collapseAux isPyWhitespace
        (((cs.dropWhile isPyWhitespace).reverse.dropWhile
          isPyWhitespace).reverse) false := by
    conv_lhs => rw [hdec]
    exact collapseAux_append_ws _ hws _ false
  rw [hrhs]
  rcases dropWhile_head_not cs with hnil | ⟨hd, tl, hcons, hhd⟩
  · rw [hnil]
    rfl
  · rw [hcons]
    cases hm : ((hd :: tl).reverse.dropWhile isPyWhitespace).reverse with
    | nil => rfl
    | cons m0 ms =>
      have hpref : hd :: tl = (m0 :: ms) ++
          ((hd :: tl).reverse.takeWhile isPyWhitespace).reverse := by
        conv_lhs => rw [(stripRight_decomp (hd :: tl)).1]
        rw [hm]
      have hm0 : m0 = hd := by
        have := congrArg (fun l => l.head?) hpref
        simpa using this.symm
      subst hm0
      rw [List.dropWhile_cons]
      simp [hhd]

/-- C7 amended.  The derived username follows the amended normalization
rule: strip diacritics, lowercase, collapse each whitespace run to a
single separator (trimming the ends), DELETE every remaining character
that is neither alphanumeric nor an underscore, then append the id
suffix. -/
theorem username_matches_amended_rule (nombre : String) (id : Int) :
    app_username nombre id = specAmendedUsername nombre id := by
  have h : joinUnderscore (pySplit (pyStrip
      ((nombre.data.map stripDiacriticChar).map pyLowerChar))) =
      collapseRuns isPyWhitespace
        ((nombre.data.map stripDiacriticChar).map pyLowerChar) := by
    rw [join_pySplit_eq_collapse]
    exact collapse_strip_invariant _
  unfold app_username specAmendedUsername slugify
  rw [h]

end Prueba
